import Mathlib

/-!
Shallow embedding of the TruAudiobook chapter pipeline
(tru_audiobook/__init__.py and scripts/truaudiobook.py).

Machine reals (Python floats) are modelled as rationals; Python dicts that
the code builds with unique keys are modelled as insertion-ordered
association lists; fallible operations return Except values mirroring the
exceptions the Python code raises.
-/

set_option maxHeartbeats 1000000

namespace TruAudiobook

/-- The apostrophe character, written via its code point. -/
def apos : Char := Char.ofNat 39

/-- A one-character string holding an apostrophe. -/
def aposStr : String := String.mk [apos]

/-- Helper for splitting: accumulates the current field in reverse. -/
def splitAux (sep : Char) : List Char → List Char → List (List Char)
  | [], acc => [acc.reverse]
  | c :: rest, acc =>
    if c = sep then acc.reverse :: splitAux sep rest []
    else splitAux sep rest (c :: acc)

/-- Python str.split(sep) for a one-character separator: every occurrence
of the separator starts a new field, and the empty string gives one empty
field. -/
def splitOnSep (sep : Char) (s : List Char) : List (List Char) := splitAux sep s []

/-- Python str.replace core: replace every non-overlapping occurrence of the
nonempty pattern (head p, tail pat), scanning left to right.  The fuel is
structural; any fuel at least the length of the list gives the real result. -/
def replaceFuel (p : Char) (pat repl : List Char) : Nat → List Char → List Char
  | 0, s => s
  | _ + 1, [] => []
  | fuel + 1, c :: rest =>
    if (p :: pat).isPrefixOf (c :: rest) then
      repl ++ replaceFuel p pat repl fuel (rest.drop pat.length)
    else
      c :: replaceFuel p pat repl fuel rest

/-- Python str.replace on strings.  An empty pattern inserts the replacement
before every character and at the end, as Python does. -/
def pyReplace (s pat repl : String) : String :=
  match pat.toList with
  | [] => String.mk (repl.toList ++ (s.toList.map (fun c => c :: repl.toList)).flatten)
  | p :: ps => String.mk (replaceFuel p ps repl.toList s.toList.length s.toList)

/-- Python str.strip(): remove leading and trailing whitespace. -/
def pyStrip (s : String) : String :=
  String.mk (((s.toList.dropWhile Char.isWhitespace).reverse.dropWhile Char.isWhitespace).reverse)

/-- Numeric value of an ASCII digit. -/
def digitVal (c : Char) : Nat := c.toNat - 48

/-- Value of a digit run read in base 10. -/
def digitsToNat (l : List Char) : Nat := l.foldl (fun acc c => acc * 10 + digitVal c) 0

/-- Python int(str) on the shapes this program meets: optional surrounding
whitespace, an optional sign, then a nonempty run of ASCII digits.  Anything
else raises ValueError, modelled as none. -/
def pyInt (l : List Char) : Option Int :=
  let t := ((l.dropWhile Char.isWhitespace).reverse.dropWhile Char.isWhitespace).reverse
  match t with
  | '+' :: rest =>
    if rest ≠ [] ∧ rest.all Char.isDigit then some (digitsToNat rest : Int) else none
  | '-' :: rest =>
    if rest ≠ [] ∧ rest.all Char.isDigit then some (-(digitsToNat rest : Int)) else none
  | rest =>
    if rest ≠ [] ∧ rest.all Char.isDigit then some (digitsToNat rest : Int) else none

/-- The string analysis of Python float(str) on plain decimal literals:
optional surrounding whitespace, an optional sign, digits with an optional
fractional part (at least one digit overall).  Returns the sign and the
integer and fraction digit runs; anything else raises ValueError, modelled
as none. -/
def pyFloatParse (l : List Char) : Option (Bool × List Char × List Char) :=
  let t := ((l.dropWhile Char.isWhitespace).reverse.dropWhile Char.isWhitespace).reverse
  let core : Bool → List Char → Option (Bool × List Char × List Char) := fun neg u =>
    let ip := u.takeWhile Char.isDigit
    let rest := u.dropWhile Char.isDigit
    match rest with
    | [] => if ip ≠ [] then some (neg, ip, []) else none
    | '.' :: fr =>
      if fr.all Char.isDigit ∧ (ip ≠ [] ∨ fr ≠ []) then some (neg, ip, fr) else none
    | _ => none
  match t with
  | '+' :: rest => core false rest
  | '-' :: rest => core true rest
  | rest => core false rest

/-- The rational value of a parsed decimal literal. -/
def decimalVal (neg : Bool) (ip fr : List Char) : ℚ :=
  (if neg then -1 else 1) * ((digitsToNat ip : ℚ) + (digitsToNat fr : ℚ) / (10 : ℚ) ^ fr.length)

/-- Python float(str) on plain decimal literals. -/
def pyFloat (l : List Char) : Option ℚ :=
  (pyFloatParse l).map (fun t => decimalVal t.1 t.2.1 t.2.2)

/-- Python str.rfind(pat): the greatest index at which pat occurs, if any. -/
def pyRFind (s pat : List Char) : Option Nat :=
  ((List.range (s.length + 1)).filter (fun i => pat.isPrefixOf (s.drop i))).getLast?

/-- The token the source slices on. -/
def partToken : List Char := ['P', 'a', 'r', 't']

/-- Python path sliced from path.rfind of the token "Part".  When the token
is absent rfind gives -1 and the slice from -1 keeps just the last
character (and the empty string stays empty). -/
def partSlice (path : List Char) : List Char :=
  match pyRFind path partToken with
  | some i => path.drop i
  | none => path.drop (path.length - 1)

/-- Python str.zfill(w) for the nonnegative numerals this program formats:
pad on the left with zeros up to width w. -/
def pyZfill (s : String) (w : Nat) : String :=
  if w ≤ s.length then s else String.mk (List.replicate (w - s.length) '0' ++ s.toList)

/-- Rounding to 4 decimal places, modelling the float formatting with four
digits that the source applies to every chapter start (exact on the non-tie
values the program produces). -/
def round4 (x : ℚ) : ℚ := ((⌊x * 10000 + 1 / 2⌋ : ℤ) : ℚ) / 10000

/-- A Python scalar as produced by get_part: a string field from a split,
or the literal int 0 default. -/
inductive PyScalar
  | str (s : String)
  | int (n : Int)
deriving DecidableEq

/-- One raw table-of-contents entry: a title plus either an absolute
timestamp field or a part-relative path field (the source probes the dict
for the keys in that order). -/
structure TocItem where
  title : String
  timestamp : Option String := none
  path : Option String := none
deriving DecidableEq

/-- One compiled chapter record, mirroring the dict built per chapter. -/
structure Chapter where
  title : String
  track : String
  artist : String
  album_artist : String
  album : String
  genre : String
  date : String
  outfile : String
  start : ℚ
  «end» : Option ℚ := none
deriving DecidableEq

/-- The exceptions the compilation path can raise. -/
inductive CompileErr
  | invalidTimestamp (ts : String)
  | valueError
  | keyError (k : String)
  | keyErrorNone
  | unknownChapterReference (title : String)
deriving DecidableEq

/-- The leading ordinal the source strips: re.search of one or more digits
followed by a dot, anchored at the start; the matched text. -/
def leadingOrdinal (l : List Char) : Option (List Char) :=
  let ds := l.takeWhile Char.isDigit
  if ds ≠ [] ∧ (l.drop ds.length).head? = some '.' then some (ds ++ ['.']) else none

/-- TruAudiobook.clean_string: apply the default replacement pairs (slash to
colon, apostrophe to apostrophe — the second is the identity because the
Python escape in the source denotes a plain apostrophe) followed by any
caller-supplied pairs, then delete every occurrence of the leading
digits-plus-dot ordinal text and strip surrounding whitespace. -/
def clean_string (string : String) (replaces : Option (List (String × String)) := none) : String :=
  let base : List (String × String) := [("/", ":"), (aposStr, aposStr)]
  let reps := base ++ replaces.getD []
  let s := reps.foldl (fun acc pr => pyReplace acc pr.1 pr.2) string
  match leadingOrdinal s.toList with
  | some m => pyStrip (pyReplace s (String.mk m) "")
  | none => s

/-- int() lifted to the exception monad: failure is ValueError. -/
def pyIntE (l : List Char) : Except CompileErr Int :=
  match pyInt l with
  | some n => .ok n
  | none => .error .valueError

/-- The first line of get_start: list(map(int, timestamp.split(colon))). -/
def splitFields (timestamp : String) : Except CompileErr (List Int) :=
  (splitOnSep ':' timestamp.toList).mapM pyIntE

/-- TruAudiobook.get_start: two fields are minutes and seconds, three fields
are hours, minutes and seconds, any other field count raises the invalid
timestamp RuntimeError. -/
def get_start (timestamp : String) : Except CompileErr Int :=
  match splitFields timestamp with
  | .error e => .error e
  | .ok [m, s] => .ok (m * 60 + s)
  | .ok [h, m, s] => .ok (h * 3600 + m * 60 + s)
  | .ok _ => .error (.invalidTimestamp timestamp)

/-- TruAudiobook.get_part: slice the path from the last occurrence of
"Part", split at hash if present, else at question mark if present, else
pair the slice with the int 0. -/
def get_part (path : String) : List PyScalar :=
  let _part := partSlice path.toList
  if _part.contains '#' then (splitOnSep '#' _part).map (fun l => PyScalar.str (String.mk l))
  else if _part.contains '?' then (splitOnSep '?' _part).map (fun l => PyScalar.str (String.mk l))
  else [PyScalar.str (String.mk _part), PyScalar.int 0]

/-- Ordered association-list lookup, modelling Python dict membership and
subscripting for the dicts this program builds. -/
def alookup {β : Type} (k : String) : List (String × β) → Option β
  | [] => none
  | p :: rest => if p.1 = k then some p.2 else alookup k rest

/-- Set the end field of a chapter. -/
def updEnd (c : Chapter) (v : ℚ) : Chapter := { c with «end» := some v }

/-- Python chapters[k]["end"] = v on the insertion-ordered chapter map. -/
def setEnd (chaps : List (String × Chapter)) (k : String) (v : ℚ) : List (String × Chapter) :=
  chaps.map (fun p => if p.1 = k then (p.1, updEnd p.2 v) else p)

/-- The loop state of compile_chapters. -/
structure CState where
  chapters : List (String × Chapter)
  last_chapter : Option String
  last_duration_part : Option String
  offset : ℚ
  track_num : Nat
deriving DecidableEq

/-- The state before the marker loop. -/
def initState : CState := ⟨[], none, none, 0, 0⟩

/-- Python float() applied to the resolved start scalar. -/
def pyFloatScalar : PyScalar → Except CompileErr ℚ
  | .int n => .ok (n : ℚ)
  | .str s =>
    match pyFloat s.toList with
    | some q => .ok q
    | none => .error .valueError

/-- The chapter dict literal built per new marker. -/
def mkChapter (author title date chapter_title : String) (track_num : Nat) (s : ℚ) : Chapter :=
  { title := chapter_title, track := Nat.repr track_num, artist := author,
    album_artist := author, album := title, genre := "Audiobook", date := date,
    outfile := pyZfill (Nat.repr track_num) 2 ++ " - " ++ chapter_title ++ ".mp3",
    start := s, «end» := none }

/-- One iteration of the marker loop of TruAudiobook.compile_chapters:
duplicate cleaned titles are skipped; otherwise the time reference is
resolved (a timestamp via get_start, a path via get_part with the
duration-change offset rule), the accumulated offset is added, the result
is rounded to four decimals, the chapter is appended and the previous
chapter's end is back-filled with the new start. -/
def compileStep (author title date : String) (durations : List (String × ℚ))
    (st : CState) (item : TocItem) : Except CompileErr CState :=
  let chapter_title := clean_string item.title none
  if (alookup chapter_title st.chapters).isSome then .ok st
  else
    let track_num := st.track_num + 1
    let resolved : Except CompileErr (PyScalar × ℚ × Option String) :=
      match item.timestamp with
      | some ts =>
        match get_start ts with
        | .error e => .error e
        | .ok n => .ok (PyScalar.int n, st.offset, st.last_duration_part)
      | none =>
        match item.path with
        | some p =>
          match get_part p with
          | [PyScalar.str part, s0] =>
            let ldp := st.last_duration_part.getD part
            match alookup ldp durations with
            | none => .error (.keyError ldp)
            | some dl =>
              match alookup part durations with
              | none => .error (.keyError part)
              | some dp =>
                if dl = dp then .ok (s0, st.offset, some ldp)
                else .ok (s0, st.offset + dl, some part)
          | _ => .error .valueError
        | none => .error (.unknownChapterReference item.title)
    match resolved with
    | .error e => .error e
    | .ok (s0, offset, ldp) =>
      match pyFloatScalar s0 with
      | .error e => .error e
      | .ok sv =>
        let _start := round4 (sv + offset)
        let ch := mkChapter author title date chapter_title track_num _start
        let withNew := st.chapters ++ [(chapter_title, ch)]
        let chapters :=
          match st.last_chapter with
          | some lc => setEnd withNew lc _start
          | none => withNew
        .ok { chapters := chapters, last_chapter := some chapter_title,
              last_duration_part := ldp, offset := offset, track_num := track_num }

/-- The whole marker loop. -/
def compileLoop (author title date : String) (durations : List (String × ℚ)) :
    CState → List TocItem → Except CompileErr CState
  | st, [] => .ok st
  | st, item :: rest =>
    match compileStep author title date durations st item with
    | .ok st2 => compileLoop author title date durations st2 rest
    | .error e => .error e

/-- The second pass of compile_chapters on one entry: append slash total to
the track field. -/
def trackTotal (n : Nat) (p : String × Chapter) : String × Chapter :=
  (p.1, { p.2 with track := p.2.track ++ "/" ++ Nat.repr n })

/-- TruAudiobook.compile_chapters: run the marker loop, then set the last
chapter's end to the sum of all part durations (a KeyError on the None key
when no chapter was produced), then rewrite every track as numeral slash
total. -/
def compile_chapters (author title date : String) (toc : List TocItem)
    (durations : List (String × ℚ)) : Except CompileErr (List (String × Chapter)) :=
  match compileLoop author title date durations initState toc with
  | .error e => .error e
  | .ok st =>
    match st.last_chapter with
    | none => .error .keyErrorNone
    | some lc =>
      let chapters := setEnd st.chapters lc ((durations.map Prod.snd).sum)
      .ok (chapters.map (trackTotal chapters.length))

/-- One transcoder invocation recorded by the exporter model: the output
path plus the cut window taken from the chapter. -/
structure Invocation where
  outfile : String
  start : ℚ
  stop : Option ℚ
deriving DecidableEq

/-- The loop of TruAudiobook.convert_chapters over the ordered chapter map,
threading the set of existing files and the invocations performed: an
output path that already exists is skipped, otherwise the transcoder runs
and creates the file. -/
def convertLoop (destination_dir : String) :
    List String × List Invocation → List (String × Chapter) → List String × List Invocation
  | acc, [] => acc
  | (files, invs), p :: rest =>
    let outfile := destination_dir ++ "/" ++ p.2.outfile
    if files.contains outfile then convertLoop destination_dir (files, invs) rest
    else
      convertLoop destination_dir
        (files ++ [outfile], invs ++ [⟨outfile, p.2.start, p.2.«end»⟩]) rest

/-- TruAudiobook.convert_chapters (successful non-dry run): returns the
files present afterwards and the transcoder invocations performed. -/
def convert_chapters (destination_dir : String) (chapters : List (String × Chapter))
    (existing : List String) : List String × List Invocation :=
  convertLoop destination_dir (existing, []) chapters

/-- An uncaught Python exception escaping process_contents. -/
inductive PyExc
  | exc (msg : String)
deriving DecidableEq

/-- The batch loop of TruAudiobook.run: self.result is overwritten with
each book's outcome; an uncaught exception propagates out of the loop. -/
def runLoop : Bool → List (Except PyExc Bool) → Except PyExc Bool
  | result, [] => .ok result
  | _, o :: rest =>
    match o with
    | .error e => .error e
    | .ok b => runLoop b rest

/-- TruAudiobook.run over the per-book outcomes of process_contents: an
empty active book list returns False, otherwise the loop runs with
self.result initialized to True. -/
def run (outcomes : List (Except PyExc Bool)) : Except PyExc Bool :=
  match outcomes with
  | [] => .ok false
  | _ => runLoop true outcomes

/-- scripts/truaudiobook.py main: exit code 1 when run returns False; an
uncaught exception also makes the interpreter exit nonzero. -/
def mainExit (outcomes : List (Except PyExc Bool)) : Nat :=
  match run outcomes with
  | .ok true => 0
  | .ok false => 1
  | .error _ => 1

/-- The starts of a compiled timeline, in order, when compilation succeeded. -/
def timelineStarts (r : Except CompileErr (List (String × Chapter))) : Option (List ℚ) :=
  match r with
  | .ok l => some (l.map (fun p => p.2.start))
  | .error _ => none

/-- The number of chapters of a compiled timeline, when compilation
succeeded. -/
def timelineLength (r : Except CompileErr (List (String × Chapter))) : Option Nat :=
  match r with
  | .ok l => some l.length
  | .error _ => none

/-- The track fields of a compiled timeline, when compilation succeeded. -/
def timelineTracks (r : Except CompileErr (List (String × Chapter))) : Option (List String) :=
  match r with
  | .ok l => some (l.map (fun p => p.2.track))
  | .error _ => none

/-- Two adjacent chapters are linked: the earlier chapter's end is the later
chapter's start. -/
def chLink (x y : String × Chapter) : Prop := x.2.«end» = some y.2.start

/-- The loop invariant of compile_chapters: the chapter count equals the
track counter, the tracks are the numerals one through the counter in
order, the keys are distinct, and either nothing was produced yet or
last_chapter is the key of the last chapter, whose end is still unset,
with all earlier ends linked to the following starts. -/
def StInv (st : CState) : Prop :=
  st.chapters.length = st.track_num ∧
  st.chapters.map (fun p => p.2.track) = (List.range st.track_num).map (fun i => Nat.repr (i + 1)) ∧
  (st.chapters.map Prod.fst).Nodup ∧
  ((st.last_chapter = none ∧ st.chapters = []) ∨
    (∃ init lc cl, st.last_chapter = some lc ∧ st.chapters = init ++ [(lc, cl)] ∧
      cl.«end» = none ∧ List.Chain' chLink st.chapters))

/-! Concrete inputs used to exercise the pipeline. -/

/-- Two part-relative markers spanning a part boundary. -/
def tocOffset : List TocItem :=
  [⟨"A", none, some "Part01#590.0"⟩, ⟨"B", none, some "Part02#10.0"⟩]

/-- Two parts of different durations. -/
def dursTwoParts : List (String × ℚ) := [("Part01", 600), ("Part02", 550)]

/-- Two part-relative markers followed by an absolute timestamp marker. -/
def tocMixed : List TocItem :=
  [⟨"A", none, some "Part01#0"⟩, ⟨"B", none, some "Part02#0"⟩, ⟨"C", some "01:00", none⟩]

/-- Two absolute markers whose timestamps are out of order. -/
def tocUnsorted : List TocItem :=
  [⟨"A", some "02:00", none⟩, ⟨"B", some "01:00", none⟩]

/-- A single part of duration 200. -/
def dursOne : List (String × ℚ) := [("P", 200)]

/-- Markers with a duplicated title. -/
def tocDup : List TocItem :=
  [⟨"Ch 1", some "00:10", none⟩, ⟨"Ch 1", some "00:20", none⟩, ⟨"Ch 2", some "00:30", none⟩]

/-- A one-marker table of contents. -/
def tocSingle : List TocItem := [⟨"Solo", some "00:05", none⟩]

/-- Shorthand for writing out expected chapter records in concrete runs. -/
def chRec (author album date title track outfile : String) (s : ℚ) (e : Option ℚ) : Chapter :=
  { title := title, track := track, artist := author, album_artist := author, album := album,
    genre := "Audiobook", date := date, outfile := outfile, start := s, «end» := e }

/-- The timeline the compiler produces for tocDup with dursOne. -/
def tocDupCompiled : List (String × Chapter) :=
  [("Ch 1", chRec "au" "ti" "da" "Ch 1" "1/2" "01 - Ch 1.mp3" 10 (some 30)),
   ("Ch 2", chRec "au" "ti" "da" "Ch 2" "2/2" "02 - Ch 2.mp3" 30 (some 200))]

end TruAudiobook

namespace TruAudiobook

/-! ### Helper lemmas -/

theorem alookup_eq_none_iff {β : Type} (k : String) (l : List (String × β)) :
    alookup k l = none ↔ k ∉ l.map Prod.fst := by
  induction l with
  | nil => simp [alookup]
  | cons p rest ih =>
    by_cases h : p.1 = k
    · simp [alookup, h]
    · simp [alookup, h, ih, Ne.symm h]

theorem setEnd_cons (p : String × Chapter) (rest : List (String × Chapter)) (k : String) (v : ℚ) :
    setEnd (p :: rest) k v =
      (if p.1 = k then (p.1, updEnd p.2 v) else p) :: setEnd rest k v := rfl

theorem setEnd_append (l₁ l₂ : List (String × Chapter)) (k : String) (v : ℚ) :
    setEnd (l₁ ++ l₂) k v = setEnd l₁ k v ++ setEnd l₂ k v := by
  simp [setEnd]

theorem setEnd_of_not_mem (l : List (String × Chapter)) (k : String) (v : ℚ)
    (h : k ∉ l.map Prod.fst) : setEnd l k v = l := by
  induction l with
  | nil => rfl
  | cons p rest ih =>
    simp only [List.map_cons, List.mem_cons] at h
    push_neg at h
    rw [setEnd_cons, if_neg (fun hh => h.1 hh.symm), ih h.2]

theorem setEnd_singleton_self (k : String) (c : Chapter) (v : ℚ) :
    setEnd [(k, c)] k v = [(k, updEnd c v)] := by
  simp [setEnd]

theorem map_fst_setEnd (l : List (String × Chapter)) (k : String) (v : ℚ) :
    (setEnd l k v).map Prod.fst = l.map Prod.fst := by
  induction l with
  | nil => rfl
  | cons p rest ih =>
    rw [setEnd_cons]
    by_cases h : p.1 = k <;> simp [h, ih]

theorem map_track_setEnd (l : List (String × Chapter)) (k : String) (v : ℚ) :
    (setEnd l k v).map (fun p => p.2.track) = l.map (fun p => p.2.track) := by
  induction l with
  | nil => rfl
  | cons p rest ih =>
    rw [setEnd_cons]
    by_cases h : p.1 = k <;> simp [h, ih, updEnd]

theorem length_setEnd (l : List (String × Chapter)) (k : String) (v : ℚ) :
    (setEnd l k v).length = l.length := by
  simp [setEnd]

end TruAudiobook

namespace TruAudiobook

theorem start_updEnd (c : Chapter) (v : ℚ) : (updEnd c v).start = c.start := rfl

theorem end_updEnd (c : Chapter) (v : ℚ) : (updEnd c v).«end» = some v := rfl

theorem track_updEnd (c : Chapter) (v : ℚ) : (updEnd c v).track = c.track := rfl

theorem stInv_init : StInv initState := by
  refine ⟨rfl, rfl, by simp [initState], Or.inl ⟨rfl, rfl⟩⟩

/-- What a successful compileStep can produce: either the marker was a
duplicate and the state is unchanged, or a new chapter was appended with
the next track numeral, the previous last chapter's end back-filled. -/
theorem compileStep_ok_cases (a t d : String) (durs : List (String × ℚ)) (st : CState)
    (item : TocItem) (st' : CState) (h : compileStep a t d durs st item = .ok st') :
    st' = st ∨
    ∃ sv offset ldp,
      alookup (clean_string item.title none) st.chapters = none ∧
      st' = { chapters :=
                (match st.last_chapter with
                 | some lc => setEnd (st.chapters ++ [(clean_string item.title none,
                     mkChapter a t d (clean_string item.title none) (st.track_num + 1)
                       (round4 (sv + offset)))]) lc (round4 (sv + offset))
                 | none => st.chapters ++ [(clean_string item.title none,
                     mkChapter a t d (clean_string item.title none) (st.track_num + 1)
                       (round4 (sv + offset)))]),
              last_chapter := some (clean_string item.title none),
              last_duration_part := ldp, offset := offset, track_num := st.track_num + 1 } := by
  simp only [compileStep] at h
  by_cases hmem : (alookup (clean_string item.title none) st.chapters).isSome
  · rw [if_pos hmem] at h
    cases h
    exact Or.inl rfl
  · rw [if_neg hmem] at h
    rw [Option.not_isSome_iff_eq_none] at hmem
    right
    split at h
    · exact absurd h (by simp)
    next s0 offset ldp heq =>
      split at h
      · exact absurd h (by simp)
      next sv heqf =>
        cases h
        exact ⟨sv, offset, ldp, hmem, rfl⟩

theorem stInv_step (a t d : String) (durs : List (String × ℚ)) (st : CState)
    (item : TocItem) (st' : CState) (h : compileStep a t d durs st item = .ok st')
    (hinv : StInv st) : StInv st' := by
  rcases compileStep_ok_cases a t d durs st item st' h with rfl | ⟨sv, offset, ldp, hnone, rfl⟩
  · exact hinv
  · obtain ⟨hlen, htr, hnd, hcase⟩ := hinv
    have hk : clean_string item.title none ∉ st.chapters.map Prod.fst :=
      (alookup_eq_none_iff _ _).1 hnone
    rcases hcase with ⟨hlc, hnil⟩ | ⟨init, lc, cl, hlc, hdecomp, hend, hchain⟩
    · -- first chapter ever
      rw [hnil] at hlen
      simp only [hlc, hnil, List.nil_append, StInv]
      refine ⟨by simp [← hlen], ?_, by simp, ?_⟩
      · simp [mkChapter, ← hlen, List.range_succ]
      · exact Or.inr ⟨[], clean_string item.title none,
          mkChapter a t d (clean_string item.title none) (st.track_num + 1)
            (round4 (sv + offset)), rfl, by simp, rfl, List.chain'_singleton _⟩
    · -- a previous chapter exists
      rw [hdecomp] at hlen htr hnd hk hchain
      have hkne : clean_string item.title none ≠ lc := by
        intro hcontra
        apply hk
        rw [hcontra]
        simp
      have hlcinit : lc ∉ init.map Prod.fst := by
        rw [List.map_append] at hnd
        intro hmem
        exact (List.nodup_append.1 hnd).2.2 hmem (by simp)
      have hsetEnd :
          setEnd ((init ++ [(lc, cl)]) ++ [(clean_string item.title none,
              mkChapter a t d (clean_string item.title none) (st.track_num + 1)
                (round4 (sv + offset)))]) lc (round4 (sv + offset)) =
            (init ++ [(lc, updEnd cl (round4 (sv + offset)))]) ++
              [(clean_string item.title none,
                mkChapter a t d (clean_string item.title none) (st.track_num + 1)
                  (round4 (sv + offset)))] := by
        rw [setEnd_append, setEnd_append, setEnd_of_not_mem init lc _ hlcinit,
          setEnd_singleton_self, setEnd_of_not_mem]
        simp [Ne.symm hkne]
      simp only [hlc, hdecomp, StInv]
      rw [hsetEnd]
      constructor
      · simp at hlen ⊢
        omega
      constructor
      · rw [List.range_succ]
        simp only [List.map_append, List.map_cons, List.map_nil, track_updEnd] at htr ⊢
        rw [htr]
        simp [mkChapter]
      constructor
      · simp only [List.map_append, List.map_cons, List.map_nil] at hnd hk ⊢
        rw [List.nodup_append]
        refine ⟨hnd, List.nodup_singleton _, ?_⟩
        intro x hx hx'
        simp at hx'
        rw [hx'] at hx
        exact hk hx
      · refine Or.inr ⟨init ++ [(lc, updEnd cl (round4 (sv + offset)))],
          clean_string item.title none, _, rfl, rfl, rfl, ?_⟩
        rw [List.chain'_append] at hchain ⊢
        obtain ⟨hc1, hc2, hc3⟩ := hchain
        constructor
        · rw [List.chain'_append]
          refine ⟨hc1, List.chain'_singleton _, ?_⟩
          intro x hx y hy
          simp at hy
          subst hy
          have := hc3 x hx (lc, cl) (by simp)
          simpa [chLink, start_updEnd] using this
        refine ⟨List.chain'_singleton _, ?_⟩
        intro x hx y hy
        simp at hy
        subst hy
        rw [List.getLast?_concat] at hx
        simp at hx
        subst hx
        simp [chLink, end_updEnd, mkChapter]

end TruAudiobook

namespace TruAudiobook

theorem stInv_loop (a t d : String) (durs : List (String × ℚ)) (toc : List TocItem)
    (st st' : CState) (h : compileLoop a t d durs st toc = .ok st') (hinv : StInv st) :
    StInv st' := by
  induction toc generalizing st with
  | nil =>
    simp only [compileLoop] at h
    cases h
    exact hinv
  | cons item rest ih =>
    simp only [compileLoop] at h
    split at h
    next st2 heq => exact ih st2 h (stInv_step a t d durs st item st2 heq hinv)
    next e heq => exact absurd h (by simp)

/-- Decomposing a successful compile_chapters run: the loop succeeded with
an invariant-satisfying state, and the result is the final end write plus
the track rewrite applied to its chapters. -/
theorem compile_ok_struct (a t d : String) (toc : List TocItem) (durs : List (String × ℚ))
    (chs : List (String × Chapter)) (h : compile_chapters a t d toc durs = .ok chs) :
    ∃ st lc, compileLoop a t d durs initState toc = .ok st ∧ st.last_chapter = some lc ∧
      StInv st ∧
      chs = (setEnd st.chapters lc ((durs.map Prod.snd).sum)).map
        (trackTotal (setEnd st.chapters lc ((durs.map Prod.snd).sum)).length) := by
  simp only [compile_chapters] at h
  split at h
  next e heq => exact absurd h (by simp)
  next st heq =>
    split at h
    next hnonelc => exact absurd h (by simp)
    next lc hlc =>
      cases h
      exact ⟨st, lc, heq, hlc, stInv_loop a t d durs toc initState st heq stInv_init, rfl⟩

theorem setEnd_last_decomp (init : List (String × Chapter)) (lc : String) (cl : Chapter) (v : ℚ)
    (hnd : ((init ++ [(lc, cl)]).map Prod.fst).Nodup) :
    setEnd (init ++ [(lc, cl)]) lc v = init ++ [(lc, updEnd cl v)] := by
  have hlcinit : lc ∉ init.map Prod.fst := by
    rw [List.map_append] at hnd
    intro hmem
    exact (List.nodup_append.1 hnd).2.2 hmem (by simp)
  rw [setEnd_append, setEnd_of_not_mem init lc _ hlcinit, setEnd_singleton_self]

theorem chain'_concat_updEnd (init : List (String × Chapter)) (lc : String) (cl : Chapter)
    (v : ℚ) (h : List.Chain' chLink (init ++ [(lc, cl)])) :
    List.Chain' chLink (init ++ [(lc, updEnd cl v)]) := by
  rw [List.chain'_append] at h ⊢
  obtain ⟨h1, h2, h3⟩ := h
  refine ⟨h1, List.chain'_singleton _, ?_⟩
  intro x hx y hy
  simp at hy
  subst hy
  have := h3 x hx (lc, cl) (by simp)
  simpa [chLink, start_updEnd] using this

/-- A compiled timeline is never empty. -/
theorem compile_ok_ne_nil (a t d : String) (toc : List TocItem) (durs : List (String × ℚ))
    (chs : List (String × Chapter)) (h : compile_chapters a t d toc durs = .ok chs) :
    chs ≠ [] := by
  obtain ⟨st, lc, hloop, hlc, ⟨hlen, htr, hnd, hcase⟩, hchs⟩ :=
    compile_ok_struct a t d toc durs chs h
  rcases hcase with ⟨hnonelc, hnil⟩ | ⟨init, lc', cl, hlc', hdecomp, hend, hchain⟩
  · rw [hnonelc] at hlc
    exact absurd hlc (by simp)
  · rw [hchs, hdecomp]
    simp [setEnd]

/-- A compiled timeline is linked: every chapter's end is the next
chapter's start, and the final chapter's end is the sum of the part
durations. -/
theorem compile_ok_chain (a t d : String) (toc : List TocItem) (durs : List (String × ℚ))
    (chs : List (String × Chapter)) (h : compile_chapters a t d toc durs = .ok chs) :
    List.Chain' chLink chs ∧
      chs.getLast?.map (fun p => p.2.«end») = some (some ((durs.map Prod.snd).sum)) := by
  obtain ⟨st, lc, hloop, hlc, ⟨hlen, htr, hnd, hcase⟩, hchs⟩ :=
    compile_ok_struct a t d toc durs chs h
  rcases hcase with ⟨hnonelc, hnil⟩ | ⟨init, lc', cl, hlc', hdecomp, hend, hchain⟩
  · rw [hnonelc] at hlc
    exact absurd hlc (by simp)
  · have hlceq : lc' = lc := by
      rw [hlc'] at hlc
      exact Option.some_injective _ hlc
    rw [hlceq] at hdecomp
    rw [hdecomp] at hchs hnd
    rw [setEnd_last_decomp init lc cl _ hnd] at hchs
    have hchain2 : List.Chain' chLink (init ++ [(lc, updEnd cl ((durs.map Prod.snd).sum))] ) := by
      rw [hdecomp] at hchain
      exact chain'_concat_updEnd init lc cl _ hchain
    constructor
    · rw [hchs]
      refine List.chain'_map_of_chain' _ ?_ hchain2
      intro x y hxy
      simpa [chLink] using hxy
    · rw [hchs]
      rw [List.getLast?_map]
      rw [List.getLast?_concat]
      simp [trackTotal, end_updEnd]

/-- The track fields of a compiled timeline are the numerals one to the
chapter count, each suffixed with a slash and the total count. -/
theorem compile_ok_tracks (a t d : String) (toc : List TocItem) (durs : List (String × ℚ))
    (chs : List (String × Chapter)) (h : compile_chapters a t d toc durs = .ok chs) :
    chs.map (fun p => p.2.track) =
      (List.range chs.length).map (fun i => Nat.repr (i + 1) ++ "/" ++ Nat.repr chs.length) := by
  obtain ⟨st, lc, hloop, hlc, ⟨hlen, htr, hnd, hcase⟩, hchs⟩ :=
    compile_ok_struct a t d toc durs chs h
  have hlenchs : chs.length = st.track_num := by
    rw [hchs]
    simp [length_setEnd, hlen]
  have hlenL : (setEnd st.chapters lc ((durs.map Prod.snd).sum)).length = st.track_num := by
    simp [length_setEnd, hlen]
  have : ((fun p : String × Chapter => p.2.track) ∘
      trackTotal (setEnd st.chapters lc ((durs.map Prod.snd).sum)).length) =
      fun p : String × Chapter => p.2.track ++ "/" ++ Nat.repr st.track_num := by
    funext p
    simp [trackTotal, hlenL]
  have hmt : (setEnd st.chapters lc ((durs.map Prod.snd).sum)).map
      (fun p : String × Chapter => p.2.track) = (List.range st.track_num).map
      (fun i => Nat.repr (i + 1)) := by
    rw [map_track_setEnd, htr]
  have hsplit : (fun p : String × Chapter => p.2.track ++ "/" ++ Nat.repr st.track_num) =
      (fun s : String => s ++ "/" ++ Nat.repr st.track_num) ∘
        (fun p : String × Chapter => p.2.track) := rfl
  conv_lhs => rw [hchs]
  rw [List.map_map, this, hsplit, ← List.map_map, hmt, List.map_map, hlenchs]
  rfl

end TruAudiobook

namespace TruAudiobook

theorem convertLoop_files_mono (d : String) (chs : List (String × Chapter))
    (files : List String) (invs : List Invocation) (x : String) (hx : x ∈ files) :
    x ∈ (convertLoop d (files, invs) chs).1 := by
  induction chs generalizing files invs with
  | nil => exact hx
  | cons p rest ih =>
    simp only [convertLoop]
    split
    · exact ih files invs hx
    · exact ih _ _ (by simp [hx])

theorem convertLoop_all_present (d : String) (chs : List (String × Chapter))
    (files : List String) (invs : List Invocation) (p : String × Chapter) (hp : p ∈ chs) :
    (d ++ "/" ++ p.2.outfile) ∈ (convertLoop d (files, invs) chs).1 := by
  induction chs generalizing files invs with
  | nil => exact absurd hp (by simp)
  | cons q rest ih =>
    rcases List.mem_cons.1 hp with rfl | hp'
    · simp only [convertLoop]
      split
      next hc => exact convertLoop_files_mono d rest files invs _ (by simpa using hc)
      next hc => exact convertLoop_files_mono d rest _ _ _ (by simp)
    · simp only [convertLoop]
      split
      · exact ih files invs hp'
      · exact ih _ _ hp'

theorem convertLoop_skip_all (d : String) (chs : List (String × Chapter))
    (files : List String) (invs : List Invocation)
    (h : ∀ p ∈ chs, (d ++ "/" ++ p.2.outfile) ∈ files) :
    convertLoop d (files, invs) chs = (files, invs) := by
  induction chs with
  | nil => rfl
  | cons q rest ih =>
    simp only [convertLoop]
    split
    next hc => exact ih (fun p hp => h p (by simp [hp]))
    next hc =>
      exact absurd (h q (by simp)) (by simpa using hc)

theorem convertLoop_no_overwrite (d : String) (chs : List (String × Chapter))
    (files : List String) (invs : List Invocation) (E : List String)
    (hE : ∀ x ∈ E, x ∈ files) (hinvs : ∀ inv ∈ invs, inv.outfile ∉ E) :
    ∀ inv ∈ (convertLoop d (files, invs) chs).2, inv.outfile ∉ E := by
  induction chs generalizing files invs with
  | nil => exact hinvs
  | cons q rest ih =>
    simp only [convertLoop]
    split
    · exact ih files invs hE hinvs
    next hc =>
      refine ih _ _ ?_ ?_
      · intro x hx
        simp [hE x hx]
      intro inv hinv
      rcases List.mem_append.1 hinv with h1 | h2
      · exact hinvs inv h1
      · simp at h2
        rw [h2]
        intro hmem
        have hcontra : (d ++ "/" ++ q.2.outfile) ∉ files := by simpa using hc
        exact hcontra (hE _ hmem)

/-- Running the exporter against a directory that already holds every
output performs no invocation; in particular a second run over the same
timeline performs none, and no invocation ever targets a file that
existed before the run. -/
theorem convert_chapters_idempotent (d : String) (chs : List (String × Chapter))
    (existing : List String) :
    (convert_chapters d chs (convert_chapters d chs existing).1).2 = [] ∧
      (convert_chapters d chs existing).2.filter
        (fun inv => existing.contains inv.outfile) = [] := by
  constructor
  · have hall : ∀ p ∈ chs, (d ++ "/" ++ p.2.outfile) ∈ (convert_chapters d chs existing).1 :=
      fun p hp => convertLoop_all_present d chs existing [] p hp
    have := convertLoop_skip_all d chs (convert_chapters d chs existing).1 [] hall
    simp only [convert_chapters] at this ⊢
    rw [this]
  · rw [List.filter_eq_nil_iff]
    intro inv hinv
    have := convertLoop_no_overwrite d chs existing [] existing (fun x hx => hx)
      (by simp) inv hinv
    simpa using this

end TruAudiobook

namespace TruAudiobook

theorem runLoop_append_ok (bs : List Bool) (b r : Bool) :
    runLoop r ((bs ++ [b]).map Except.ok) = .ok b := by
  induction bs generalizing r with
  | nil => rfl
  | cons x rest ih => exact ih x

theorem runLoop_error (pre : List Bool) (e : PyExc) (rest : List (Except PyExc Bool)) (r : Bool) :
    runLoop r (pre.map Except.ok ++ .error e :: rest) = .error e := by
  induction pre generalizing r with
  | nil => rfl
  | cons x xs ih => exact ih x

theorem run_of_ne_nil (outs : List (Except PyExc Bool)) (h : outs ≠ []) :
    run outs = runLoop true outs := by
  cases outs with
  | nil => exact absurd rfl h
  | cons x rest => rfl

/-- The batch driver returns the last processed book's outcome: earlier
failures are overwritten, and an exception aborts the remaining books. -/
theorem run_last (bs : List Bool) (b : Bool) :
    run ((bs ++ [b]).map Except.ok) = .ok b := by
  rw [run_of_ne_nil _ (by simp)]
  exact runLoop_append_ok bs b true

theorem run_exception (pre : List Bool) (e : PyExc) (rest : List (Except PyExc Bool)) :
    run (pre.map Except.ok ++ .error e :: rest) = .error e := by
  rw [run_of_ne_nil _ (by simp)]
  exact runLoop_error pre e rest true

/-! ### Character provenance through the string cleaning pipeline -/

theorem mem_replaceFuel (p : Char) (pat repl : List Char) (fuel : Nat) (s : List Char)
    (c : Char) (h : c ∈ replaceFuel p pat repl fuel s) : c ∈ repl ∨ c ∈ s := by
  induction fuel generalizing s with
  | zero => exact Or.inr h
  | succ n ih =>
    cases s with
    | nil => exact absurd h (by simp [replaceFuel])
    | cons x rest =>
      simp only [replaceFuel] at h
      split at h
      · rcases List.mem_append.1 h with h1 | h2
        · exact Or.inl h1
        · rcases ih _ h2 with h3 | h4
          · exact Or.inl h3
          · exact Or.inr (List.mem_cons_of_mem x (List.drop_subset _ _ h4))
      · rcases List.mem_cons.1 h with rfl | h2
        · exact Or.inr (List.mem_cons_self _ _)
        · rcases ih _ h2 with h3 | h4
          · exact Or.inl h3
          · exact Or.inr (List.mem_cons_of_mem x h4)

theorem mem_replaceFuel_single (p : Char) (repl : List Char) (fuel : Nat) (s : List Char)
    (c : Char) (hfuel : s.length ≤ fuel) (h : c ∈ replaceFuel p [] repl fuel s) :
    c ∈ repl ∨ (c ∈ s ∧ c ≠ p) := by
  induction fuel generalizing s with
  | zero =>
    have hs : s = [] := List.length_eq_zero.1 (Nat.le_zero.1 hfuel)
    subst hs
    exact absurd h (by simp [replaceFuel])
  | succ n ih =>
    cases s with
    | nil => exact absurd h (by simp [replaceFuel])
    | cons x rest =>
      have hlen : rest.length ≤ n := by simpa using hfuel
      simp only [replaceFuel] at h
      split at h
      next hpre =>
        have hx : p = x := by
          rw [ List.isPrefixOf_iff_prefix] at hpre
          exact ( List.cons_prefix_cons.1 hpre).1
        rcases List.mem_append.1 h with h1 | h2
        · exact Or.inl h1
        · simp only [List.length_nil, List.drop_zero] at h2
          rcases ih rest hlen h2 with h3 | ⟨h4, h5⟩
          · exact Or.inl h3
          · exact Or.inr ⟨List.mem_cons_of_mem x h4, h5⟩
      next hpre =>
        have hx : p ≠ x := by
          intro hc
          apply hpre
          rw [ List.isPrefixOf_iff_prefix]
          exact List.cons_prefix_cons.2 ⟨hc, List.nil_prefix⟩
        rcases List.mem_cons.1 h with rfl | h2
        · exact Or.inr ⟨List.mem_cons_self _ _, fun hc => hx hc.symm⟩
        · rcases ih rest hlen h2 with h3 | ⟨h4, h5⟩
          · exact Or.inl h3
          · exact Or.inr ⟨List.mem_cons_of_mem x h4, h5⟩

theorem toList_mk (l : List Char) : (String.mk l).toList = l := rfl

theorem mem_pyReplace (s pat repl : String) (c : Char)
    (h : c ∈ (pyReplace s pat repl).toList) : c ∈ s.toList ∨ c ∈ repl.toList := by
  simp only [pyReplace] at h
  split at h
  · rw [toList_mk] at h
    rcases List.mem_append.1 h with h1 | h2
    · exact Or.inr h1
    · rw [List.mem_flatten] at h2
      obtain ⟨a, ha, hc⟩ := h2
      rw [List.mem_map] at ha
      obtain ⟨x, hx, rfl⟩ := ha
      rcases List.mem_cons.1 hc with rfl | h3
      · exact Or.inl hx
      · exact Or.inr h3
  · rw [toList_mk] at h
    rcases mem_replaceFuel _ _ _ _ _ _ h with h1 | h2
    · exact Or.inr h1
    · exact Or.inl h2

/-- A single-character pattern replacement leaves no copy of the pattern
character except those contributed by the replacement text. -/
theorem mem_pyReplace_single (s : String) (p : Char) (pat repl : String) (c : Char)
    (hpat : pat.toList = [p]) (h : c ∈ (pyReplace s pat repl).toList) :
    c ∈ repl.toList ∨ (c ∈ s.toList ∧ c ≠ p) := by
  simp only [pyReplace] at h
  split at h
  next heq => rw [hpat] at heq; exact absurd heq (by simp)
  next q qs heq =>
    rw [hpat] at heq
    injection heq with h1 h2
    subst h1
    subst h2
    rw [toList_mk] at h
    exact mem_replaceFuel_single _ _ _ _ _ (le_refl _) h

theorem mem_pyStrip (s : String) (c : Char) (h : c ∈ (pyStrip s).toList) : c ∈ s.toList := by
  simp only [pyStrip, toList_mk] at h
  rw [List.mem_reverse] at h
  have h2 := (List.dropWhile_sublist (l := (s.toList.dropWhile Char.isWhitespace).reverse)
    Char.isWhitespace).subset h
  rw [List.mem_reverse] at h2
  exact (List.dropWhile_sublist Char.isWhitespace).subset h2

end TruAudiobook

namespace TruAudiobook

theorem slash_not_mem_stage2 (s : String) :
    '/' ∉ (pyReplace (pyReplace s "/" ":") aposStr aposStr).toList := by
  intro hc
  rcases mem_pyReplace _ _ _ _ hc with h3 | h4
  · rcases mem_pyReplace_single s '/' "/" ":" '/' rfl h3 with h5 | ⟨_, h6⟩
    · exact absurd h5 (by decide)
    · exact h6 rfl
  · exact absurd h4 (by decide)

/-- Title cleaning with the default replacements leaves no slash: every
slash was mapped to a colon, and the later stages introduce none. -/
theorem slash_not_mem_clean_string (s : String) : '/' ∉ (clean_string s none).toList := by
  intro hmem
  simp only [clean_string, Option.getD, List.append_nil, List.foldl] at hmem
  rcases hord : leadingOrdinal
      (pyReplace (pyReplace s "/" ":") aposStr aposStr).toList with _ | m
  · rw [hord] at hmem
    exact slash_not_mem_stage2 s hmem
  · rw [hord] at hmem
    have h1 := mem_pyStrip _ _ hmem
    rcases mem_pyReplace _ _ _ _ h1 with h2 | h3
    · exact slash_not_mem_stage2 s h2
    · exact absurd h3 (by decide)

theorem apos_not_mem_stage3 (s : String) :
    apos ∉ (pyReplace (pyReplace (pyReplace s "/" ":") aposStr aposStr) aposStr "").toList := by
  intro hc
  rcases mem_pyReplace_single _ apos aposStr "" apos rfl hc with h1 | ⟨_, h2⟩
  · exact absurd h1 (by decide)
  · exact h2 rfl

/-- Title cleaning with the apostrophe-stripping replacement requested
leaves no apostrophe in the result. -/
theorem apos_not_mem_clean_string_strip (s : String) :
    apos ∉ (clean_string s (some [(aposStr, "")])).toList := by
  intro hmem
  simp only [clean_string, Option.getD, List.foldl, List.append_eq, List.cons_append,
    List.nil_append] at hmem
  rcases hord : leadingOrdinal
      (pyReplace (pyReplace (pyReplace s "/" ":") aposStr aposStr) aposStr "").toList with _ | m
  · rw [hord] at hmem
    exact apos_not_mem_stage3 s hmem
  · rw [hord] at hmem
    have h1 := mem_pyStrip _ _ hmem
    rcases mem_pyReplace _ _ _ _ h1 with h2 | h3
    · exact apos_not_mem_stage3 s h2
    · exact absurd h3 (by decide)

end TruAudiobook

namespace TruAudiobook

theorem getLast?_start_setEnd (l : List (String × Chapter)) (k : String) (v : ℚ) :
    ((setEnd l k v).getLast?).map (fun p => p.2.start) =
      (l.getLast?).map (fun p => p.2.start) := by
  rw [setEnd, List.getLast?_map, Option.map_map]
  congr 1
  funext p
  by_cases h : p.1 = k <;> simp [h, updEnd, Function.comp]

/-- The step on a marker carrying an absolute timestamp: the chapter is
recorded with start equal to the parsed seconds plus the accumulated
offset, rounded; the offset itself is unchanged. -/
theorem compileStep_timestamp (a t d : String) (durs : List (String × ℚ)) (st : CState)
    (item : TocItem) (ts : String) (n : Int) (st' : CState)
    (hts : item.timestamp = some ts) (hn : get_start ts = .ok n)
    (hnew : alookup (clean_string item.title none) st.chapters = none)
    (hok : compileStep a t d durs st item = .ok st') :
    (st'.chapters.getLast?).map (fun p => p.2.start) = some (round4 ((n : ℚ) + st.offset)) ∧
      st'.offset = st.offset := by
  simp only [compileStep, hnew, hts, hn, Option.isSome_none, Bool.false_eq_true, if_false,
    pyFloatScalar] at hok
  rcases hlc : st.last_chapter with _ | lc <;> rw [hlc] at hok <;> cases hok
  · constructor
    · simp [List.getLast?_concat, mkChapter]
    · rfl
  · constructor
    · rw [getLast?_start_setEnd]
      simp [List.getLast?_concat, mkChapter]
    · rfl

/-- The step on a part-relative marker: the offset grows by the last seen
part's duration exactly when the two durations differ, the last seen part
advances exactly then, and the chapter's start is the parsed in-part offset
plus the updated offset, rounded. -/
theorem compileStep_path (a t d : String) (durs : List (String × ℚ)) (st : CState)
    (item : TocItem) (pa part : String) (s0 : PyScalar) (sv dl dp : ℚ) (lp : String)
    (st' : CState)
    (hts : item.timestamp = none) (hp : item.path = some pa)
    (hgp : get_part pa = [PyScalar.str part, s0])
    (hlp : st.last_duration_part = some lp)
    (hdl : alookup lp durs = some dl) (hdp : alookup part durs = some dp)
    (hsv : pyFloatScalar s0 = .ok sv)
    (hnew : alookup (clean_string item.title none) st.chapters = none)
    (hok : compileStep a t d durs st item = .ok st') :
    st'.offset = (if dl = dp then st.offset else st.offset + dl) ∧
      st'.last_duration_part = (if dl = dp then some lp else some part) ∧
      (st'.chapters.getLast?).map (fun q => q.2.start) =
        some (round4 (sv + (if dl = dp then st.offset else st.offset + dl))) := by
  simp only [compileStep, hnew, hts, hp, hgp, hlp, Option.getD, hdl, hdp,
    Option.isSome_none, Bool.false_eq_true, if_false] at hok
  by_cases hcond : dl = dp
  · rw [if_pos hcond] at hok
    simp only [if_pos hcond]
    split at hok
    next heq => exact absurd heq (by simp)
    next s0x offsetx ldpx heq =>
      rw [Except.ok.injEq] at heq
      obtain ⟨rfl, rfl, rfl⟩ := heq
      rw [hsv] at hok
      split at hok
      next heq2 => exact absurd heq2 (by simp)
      next svx heq2 =>
        rw [Except.ok.injEq] at heq2
        subst heq2
        rcases hlc : st.last_chapter with _ | lc <;> rw [hlc] at hok <;> cases hok
        · exact ⟨rfl, rfl, by simp [List.getLast?_concat, mkChapter]⟩
        · refine ⟨rfl, rfl, ?_⟩
          rw [getLast?_start_setEnd]
          simp [List.getLast?_concat, mkChapter]
  · rw [if_neg hcond] at hok
    simp only [if_neg hcond]
    split at hok
    next heq => exact absurd heq (by simp)
    next s0x offsetx ldpx heq =>
      rw [Except.ok.injEq] at heq
      obtain ⟨rfl, rfl, rfl⟩ := heq
      rw [hsv] at hok
      split at hok
      next heq2 => exact absurd heq2 (by simp)
      next svx heq2 =>
        rw [Except.ok.injEq] at heq2
        subst heq2
        rcases hlc : st.last_chapter with _ | lc <;> rw [hlc] at hok <;> cases hok
        · exact ⟨rfl, rfl, by simp [List.getLast?_concat, mkChapter]⟩
        · refine ⟨rfl, rfl, ?_⟩
          rw [getLast?_start_setEnd]
          simp [List.getLast?_concat, mkChapter]

/-- A marker whose cleaned title is already compiled is dropped: the state,
including the track counter and the chapter map, is unchanged, and no
error is raised. -/
theorem compileStep_duplicate (a t d : String) (durs : List (String × ℚ)) (st : CState)
    (item : TocItem)
    (hdup : (alookup (clean_string item.title none) st.chapters).isSome = true) :
    compileStep a t d durs st item = .ok st := by
  simp only [compileStep, hdup, if_true]

end TruAudiobook

namespace TruAudiobook

/-! ### Concrete runs of the compiler -/

theorem compile_empty (a t d : String) (durs : List (String × ℚ)) :
    compile_chapters a t d [] durs = .error .keyErrorNone := rfl

theorem compile_tocUnsorted_starts :
    timelineStarts (compile_chapters "au" "ti" "da" tocUnsorted dursOne) = some [120, 60] := by
  have hc1 : clean_string "A" none = "A" := by decide
  have hc2 : clean_string "B" none = "B" := by decide
  have hg1 : get_start "02:00" = .ok 120 := rfl
  have hg2 : get_start "01:00" = .ok 60 := rfl
  have hr1 : round4 (120 : ℚ) = 120 := by norm_num [round4]
  have hr2 : round4 (60 : ℚ) = 60 := by norm_num [round4]
  simp [tocUnsorted, dursOne, compile_chapters, compileLoop, compileStep, initState, alookup,
    pyFloatScalar, mkChapter, setEnd, updEnd, trackTotal, timelineStarts,
    hc1, hc2, hg1, hg2, hr1, hr2]

theorem compile_tocDup_full :
    compile_chapters "au" "ti" "da" tocDup dursOne = .ok tocDupCompiled := by
  have hc1 : clean_string "Ch 1" none = "Ch 1" := by decide
  have hc2 : clean_string "Ch 2" none = "Ch 2" := by decide
  have hg1 : get_start "00:10" = .ok 10 := rfl
  have hg2 : get_start "00:20" = .ok 20 := rfl
  have hg3 : get_start "00:30" = .ok 30 := rfl
  have hr1 : round4 (10 : ℚ) = 10 := by norm_num [round4]
  have hr2 : round4 (30 : ℚ) = 30 := by norm_num [round4]
  have hz1 : pyZfill (Nat.repr 1) 2 = "01" := by decide
  have hz2 : pyZfill (Nat.repr 2) 2 = "02" := by decide
  have ht1 : Nat.repr 1 ++ "/" ++ Nat.repr 2 = "1/2" := by decide
  have ht2 : Nat.repr 2 ++ "/" ++ Nat.repr 2 = "2/2" := by decide
  simp [tocDup, tocDupCompiled, dursOne, compile_chapters, compileLoop, compileStep, initState,
    alookup, pyFloatScalar, mkChapter, setEnd, updEnd, trackTotal, chRec,
    hc1, hc2, hg1, hg2, hg3, hr1, hr2, hz1, hz2, ht1, ht2]



theorem compile_tocOffset_starts :
    timelineStarts (compile_chapters "au" "ti" "da" tocOffset dursTwoParts) = some [590, 610] := by
  have hc1 : clean_string "A" none = "A" := by decide
  have hc2 : clean_string "B" none = "B" := by decide
  have hg1 : get_part "Part01#590.0" = [PyScalar.str "Part01", PyScalar.str "590.0"] := by decide
  have hg2 : get_part "Part02#10.0" = [PyScalar.str "Part02", PyScalar.str "10.0"] := by decide
  have hf1 : pyFloatParse ['5','9','0','.','0'] = some (false, ['5','9','0'], ['0']) := by decide
  have hf2 : pyFloatParse ['1','0','.','0'] = some (false, ['1','0'], ['0']) := by decide
  have hd1 : digitsToNat ['5','9','0'] = 590 := by decide
  have hd2 : digitsToNat ['1','0'] = 10 := by decide
  have hd3 : digitsToNat ['0'] = 0 := by decide
  have hne : ¬((600 : ℚ) = 550) := by norm_num
  have hr1 : round4 (590 : ℚ) = 590 := by norm_num [round4]
  have hr2 : round4 ((10 : ℚ) + 600) = 610 := by norm_num [round4]
  simp [tocOffset, dursTwoParts, compile_chapters, compileLoop, compileStep, initState, alookup,
    pyFloatScalar, pyFloat, String.toList, decimalVal, mkChapter, setEnd, updEnd, trackTotal,
    timelineStarts, Option.getD, hc1, hc2, hg1, hg2, hf1, hf2, hd1, hd2, hd3, hne, hr1, hr2]

theorem compile_tocMixed_starts :
    timelineStarts (compile_chapters "au" "ti" "da" tocMixed dursTwoParts) = some [0, 600, 660] := by
  have hc1 : clean_string "A" none = "A" := by decide
  have hc2 : clean_string "B" none = "B" := by decide
  have hc3 : clean_string "C" none = "C" := by decide
  have hg1 : get_part "Part01#0" = [PyScalar.str "Part01", PyScalar.str "0"] := by decide
  have hg2 : get_part "Part02#0" = [PyScalar.str "Part02", PyScalar.str "0"] := by decide
  have hg3 : get_start "01:00" = .ok 60 := rfl
  have hf1 : pyFloatParse ['0'] = some (false, ['0'], []) := by decide
  have hd1 : digitsToNat ['0'] = 0 := by decide
  have hd0 : digitsToNat [] = 0 := rfl
  have hne : ¬((600 : ℚ) = 550) := by norm_num
  have hr0 : round4 (0 : ℚ) = 0 := by norm_num [round4]
  have hr1 : round4 (600 : ℚ) = 600 := by norm_num [round4]
  have hr2 : round4 ((60 : ℚ) + 600) = 660 := by norm_num [round4]
  simp [tocMixed, dursTwoParts, compile_chapters, compileLoop, compileStep, initState, alookup,
    pyFloatScalar, pyFloat, String.toList, decimalVal, mkChapter, setEnd, updEnd, trackTotal,
    timelineStarts, Option.getD, hc1, hc2, hc3, hg1, hg2, hg3, hf1, hd1, hd0, hne, hr0, hr1, hr2]

end TruAudiobook

namespace TruAudiobook

/-! ### Step evaluations used by the witnesses -/

theorem compileStep_c2_eval :
    compileStep "au" "ti" "da" dursTwoParts ⟨[], none, some "Part01", 0, 0⟩
      ⟨"B", none, some "Part02#10.0"⟩ =
      .ok ⟨[("B", chRec "au" "ti" "da" "B" "1" "01 - B.mp3" 610 none)],
        some "B", some "Part02", 600, 1⟩ := by
  have hc : clean_string "B" none = "B" := by decide
  have hg : get_part "Part02#10.0" = [PyScalar.str "Part02", PyScalar.str "10.0"] := by decide
  have hf : pyFloatParse ['1','0','.','0'] = some (false, ['1','0'], ['0']) := by decide
  have hd1 : digitsToNat ['1','0'] = 10 := by decide
  have hd2 : digitsToNat ['0'] = 0 := by decide
  have hne : ¬((600 : ℚ) = 550) := by norm_num
  have hr : round4 ((10 : ℚ) + 600) = 610 := by norm_num [round4]
  have hrep : Nat.repr 1 = "1" := rfl
  have hz : pyZfill "1" 2 ++ " - " ++ "B" ++ ".mp3" = "01 - B.mp3" := by decide
  simp [compileStep, alookup, pyFloatScalar, pyFloat, String.toList, decimalVal, mkChapter,
    dursTwoParts, chRec, Option.getD, hc, hg, hf, hd1, hd2, hne, hr, hrep, hz]

theorem compileStep_c3_eval :
    compileStep "au" "ti" "da" dursOne initState ⟨"C", some "01:00", none⟩ =
      .ok ⟨[("C", chRec "au" "ti" "da" "C" "1" "01 - C.mp3" 60 none)], some "C", none, 0, 1⟩ := by
  have hc : clean_string "C" none = "C" := by decide
  have hg : get_start "01:00" = .ok 60 := rfl
  have hr : round4 (60 : ℚ) = 60 := by norm_num [round4]
  have hrep : Nat.repr 1 = "1" := rfl
  have hz : pyZfill "1" 2 ++ " - " ++ "C" ++ ".mp3" = "01 - C.mp3" := by decide
  simp [compileStep, initState, alookup, pyFloatScalar, mkChapter, chRec, hc, hg, hr, hrep, hz]

/-! ### The claims -/

/-- C1 (counterexample): the compiler happily returns a timeline whose
start times are not strictly increasing when the markers' resolved times
are out of order — here starts 120 then 60. -/
theorem claim1_counterexample :
    timelineStarts (compile_chapters "au" "ti" "da" tocUnsorted dursOne) = some [120, 60] ∧
      ¬ List.Chain' (fun x y : ℚ => x < y) [(120 : ℚ), 60] := by
  refine ⟨compile_tocUnsorted_starts, ?_⟩
  intro h
  rcases List.chain'_cons.1 h with ⟨hlt, _⟩
  norm_num at hlt

/-- C1 (amended): every timeline the compiler returns is nonempty, each
chapter's end equals the next chapter's start, and the last chapter's end
equals the sum of all part durations; start times, however, are whatever
the markers resolve to, in first-occurrence order, and need not increase. -/
theorem claim1_timeline_links (a t d : String) (toc : List TocItem)
    (durs : List (String × ℚ)) (chs : List (String × Chapter))
    (h : compile_chapters a t d toc durs = .ok chs) :
    chs ≠ [] ∧ List.Chain' chLink chs ∧
      (chs.getLast?).map (fun p => p.2.«end») = some (some ((durs.map Prod.snd).sum)) :=
  ⟨compile_ok_ne_nil a t d toc durs chs h, (compile_ok_chain a t d toc durs chs h).1,
    (compile_ok_chain a t d toc durs chs h).2⟩

/-- C1 (witness): the linked-timeline facts hold on a concrete
two-chapter run. -/
theorem claim1_witness :
    tocDupCompiled ≠ [] ∧ List.Chain' chLink tocDupCompiled ∧
      (tocDupCompiled.getLast?).map (fun p => p.2.«end») =
        some (some ((dursOne.map Prod.snd).sum)) :=
  claim1_timeline_links "au" "ti" "da" tocDup dursOne tocDupCompiled compile_tocDup_full

/-- C2: on a part-relative marker the offset grows by the last seen part's
duration exactly when that part's duration differs from the current
marker's part's duration, once, at the boundary; concretely parts of
durations 600 and 550 give global starts 590 and 610 to markers at
in-part offsets 590 and 10. -/
theorem claim2_offset_accumulation :
    (∀ (a t d : String) (durs : List (String × ℚ)) (st : CState) (item : TocItem)
      (pa part : String) (s0 : PyScalar) (sv dl dp : ℚ) (lp : String) (st' : CState),
      item.timestamp = none → item.path = some pa →
      get_part pa = [PyScalar.str part, s0] →
      st.last_duration_part = some lp →
      alookup lp durs = some dl → alookup part durs = some dp →
      pyFloatScalar s0 = .ok sv →
      alookup (clean_string item.title none) st.chapters = none →
      compileStep a t d durs st item = .ok st' →
      st'.offset = (if dl = dp then st.offset else st.offset + dl) ∧
        st'.last_duration_part = (if dl = dp then some lp else some part) ∧
        (st'.chapters.getLast?).map (fun q => q.2.start) =
          some (round4 (sv + (if dl = dp then st.offset else st.offset + dl)))) ∧
    timelineStarts (compile_chapters "au" "ti" "da" tocOffset dursTwoParts) = some [590, 610] :=
  ⟨fun a t d durs st item pa part s0 sv dl dp lp st' h1 h2 h3 h4 h5 h6 h7 h8 h9 =>
    compileStep_path a t d durs st item pa part s0 sv dl dp lp st' h1 h2 h3 h4 h5 h6 h7 h8 h9,
    compile_tocOffset_starts⟩

/-- C2 (witness): the offset rule instantiated at a concrete state. -/
theorem claim2_witness :
    (⟨[("B", chRec "au" "ti" "da" "B" "1" "01 - B.mp3" 610 none)],
        some "B", some "Part02", 600, 1⟩ : CState).offset =
      (if (600 : ℚ) = 550 then (0 : ℚ) else 0 + 600) ∧
    (⟨[("B", chRec "au" "ti" "da" "B" "1" "01 - B.mp3" 610 none)],
        some "B", some "Part02", 600, 1⟩ : CState).last_duration_part =
      (if (600 : ℚ) = 550 then some "Part01" else some "Part02") ∧
    ((⟨[("B", chRec "au" "ti" "da" "B" "1" "01 - B.mp3" 610 none)],
        some "B", some "Part02", 600, 1⟩ : CState).chapters.getLast?).map
      (fun q => q.2.start) =
      some (round4 (10 + (if (600 : ℚ) = 550 then (0 : ℚ) else 0 + 600))) := by
  have hf : pyFloatScalar (PyScalar.str "10.0") = .ok 10 := by
    have h : pyFloatParse ['1','0','.','0'] = some (false, ['1','0'], ['0']) := by decide
    have h1 : digitsToNat ['1','0'] = 10 := by decide
    have h2 : digitsToNat ['0'] = 0 := by decide
    norm_num [pyFloatScalar, pyFloat, String.toList, decimalVal, h, h1, h2]
  exact claim2_offset_accumulation.1 "au" "ti" "da" dursTwoParts
    ⟨[], none, some "Part01", 0, 0⟩ ⟨"B", none, some "Part02#10.0"⟩
    "Part02#10.0" "Part02" (PyScalar.str "10.0") 10 600 550 "Part01" _
    rfl rfl (by decide) rfl rfl rfl hf rfl compileStep_c2_eval

/-- C3 (counterexample): an absolute-timestamp marker appearing after
part-relative markers does not keep its parsed seconds: the accumulated
offset 600 is added, so the "01:00" marker starts at 660, not 60. -/
theorem claim3_counterexample :
    timelineStarts (compile_chapters "au" "ti" "da" tocMixed dursTwoParts) =
      some [0, 600, 660] ∧ (660 : ℚ) ≠ 60 :=
  ⟨compile_tocMixed_starts, by norm_num⟩

/-- C3 (amended): an absolute-timestamp marker's chapter starts at the
parsed seconds plus the offset accumulated so far (rounded to 4 decimal
places), leaving the offset unchanged; it equals the parsed seconds alone
exactly when no offset has accumulated. -/
theorem claim3_absolute_start (a t d : String) (durs : List (String × ℚ)) (st : CState)
    (item : TocItem) (ts : String) (n : Int) (st' : CState)
    (hts : item.timestamp = some ts) (hn : get_start ts = .ok n)
    (hnew : alookup (clean_string item.title none) st.chapters = none)
    (hok : compileStep a t d durs st item = .ok st') :
    (st'.chapters.getLast?).map (fun p => p.2.start) = some (round4 ((n : ℚ) + st.offset)) ∧
      st'.offset = st.offset ∧
      (st.offset = 0 →
        (st'.chapters.getLast?).map (fun p => p.2.start) = some (round4 (n : ℚ))) := by
  obtain ⟨h1, h2⟩ := compileStep_timestamp a t d durs st item ts n st' hts hn hnew hok
  refine ⟨h1, h2, ?_⟩
  intro hz
  rw [hz, add_zero] at h1
  exact h1

/-- C3 (witness): the absolute-start rule instantiated at the initial
state, where the offset is zero. -/
theorem claim3_witness :
    ((⟨[("C", chRec "au" "ti" "da" "C" "1" "01 - C.mp3" 60 none)],
        some "C", none, 0, 1⟩ : CState).chapters.getLast?).map (fun p => p.2.start) =
      some (round4 ((60 : Int) + initState.offset)) ∧
    (⟨[("C", chRec "au" "ti" "da" "C" "1" "01 - C.mp3" 60 none)],
        some "C", none, 0, 1⟩ : CState).offset = initState.offset ∧
    ((⟨[("C", chRec "au" "ti" "da" "C" "1" "01 - C.mp3" 60 none)],
        some "C", none, 0, 1⟩ : CState).chapters.getLast?).map (fun p => p.2.start) =
      some (round4 ((60 : Int))) := by
  obtain ⟨h1, h2, h3⟩ := claim3_absolute_start "au" "ti" "da" dursOne initState
    ⟨"C", some "01:00", none⟩ "01:00" 60 _ rfl rfl rfl compileStep_c3_eval
  exact ⟨h1, h2, h3 rfl⟩

/-- C4 (counterexample): a batch where the first book fails and the second
succeeds makes run return True and the process exit 0, so the overall run
does not report failure although a book failed. -/
theorem claim4_counterexample :
    run [Except.ok false, Except.ok true] = .ok true ∧
      mainExit [Except.ok false, Except.ok true] = 0 :=
  ⟨rfl, rfl⟩

/-- C4 (amended): the driver keeps processing after a book that merely
returns failure, but self.result is overwritten each iteration, so the
run's outcome (and the process exit code) reflects only the last book; a
raised exception aborts the remaining batch; an empty batch reports
failure. -/
theorem claim4_batch_driver :
    (run ([] : List (Except PyExc Bool)) = .ok false) ∧
    (∀ (bs : List Bool) (b : Bool), run ((bs ++ [b]).map Except.ok) = .ok b) ∧
    (∀ (bs : List Bool) (b : Bool),
      mainExit ((bs ++ [b]).map Except.ok) = (if b then 0 else 1)) ∧
    (∀ (pre : List Bool) (e : PyExc) (rest : List (Except PyExc Bool)),
      run (pre.map Except.ok ++ .error e :: rest) = .error e) := by
  refine ⟨rfl, run_last, ?_, run_exception⟩
  intro bs b
  rw [mainExit, run_last]
  cases b <;> rfl

end TruAudiobook

namespace TruAudiobook

/-- C5: absolute-timestamp parsing maps three colon-separated integer
fields to hours, minutes and seconds, two fields to minutes and seconds,
and fails with the invalid-timestamp error on every other field count. -/
theorem claim5_get_start :
    (get_start "01:02:03" = .ok 3723) ∧ (get_start "02:03" = .ok 123) ∧
    (get_start "1:2:3:4" = .error (.invalidTimestamp "1:2:3:4")) ∧
    (∀ (ts : String) (hh mm ss : Int), splitFields ts = .ok [hh, mm, ss] →
      get_start ts = .ok (hh * 3600 + mm * 60 + ss)) ∧
    (∀ (ts : String) (mm ss : Int), splitFields ts = .ok [mm, ss] →
      get_start ts = .ok (mm * 60 + ss)) ∧
    (∀ (ts : String) (fs : List Int), splitFields ts = .ok fs →
      fs.length ≠ 2 → fs.length ≠ 3 → get_start ts = .error (.invalidTimestamp ts)) := by
  refine ⟨rfl, rfl, rfl, ?_, ?_, ?_⟩
  · intro ts hh mm ss hsf
    simp [get_start, hsf]
  · intro ts mm ss hsf
    simp [get_start, hsf]
  · intro ts fs hsf h2 h3
    rcases fs with _ | ⟨a, _ | ⟨b, _ | ⟨c, _ | ⟨e, rest⟩⟩⟩⟩ <;> simp_all [get_start, hsf]

/-- C5 (witness): the three parsing rules applied to concrete strings. -/
theorem claim5_witness :
    get_start "01:02:03" = .ok (1 * 3600 + 2 * 60 + 3) ∧
    get_start "02:03" = .ok (2 * 60 + 3) ∧
    get_start "1:2:3:4" = .error (.invalidTimestamp "1:2:3:4") :=
  ⟨claim5_get_start.2.2.2.1 "01:02:03" 1 2 3 rfl,
   claim5_get_start.2.2.2.2.1 "02:03" 2 3 rfl,
   claim5_get_start.2.2.2.2.2 "1:2:3:4" [1, 2, 3, 4] rfl (by decide) (by decide)⟩

/-- C6: a marker whose cleaned title is already compiled is dropped with
no error, no new chapter and no track number consumed; the three markers
titled Ch 1, Ch 1, Ch 2 compile to exactly two chapters. -/
theorem claim6_duplicate_titles :
    (∀ (a t d : String) (durs : List (String × ℚ)) (st : CState) (item : TocItem),
      (alookup (clean_string item.title none) st.chapters).isSome = true →
      compileStep a t d durs st item = .ok st) ∧
    timelineLength (compile_chapters "au" "ti" "da" tocDup dursOne) = some 2 := by
  refine ⟨compileStep_duplicate, ?_⟩
  rw [compile_tocDup_full]
  rfl

/-- C6 (witness): a duplicate marker leaves a concrete state untouched. -/
theorem claim6_witness :
    compileStep "au" "ti" "da" dursOne
      ⟨[("Ch 1", chRec "au" "ti" "da" "Ch 1" "1" "01 - Ch 1.mp3" 10 none)],
        some "Ch 1", none, 0, 1⟩
      ⟨"Ch 1", some "00:20", none⟩ =
      .ok ⟨[("Ch 1", chRec "au" "ti" "da" "Ch 1" "1" "01 - Ch 1.mp3" 10 none)],
        some "Ch 1", none, 0, 1⟩ :=
  claim6_duplicate_titles.1 "au" "ti" "da" dursOne _ _ (by decide)

/-- C7: title cleaning maps every slash to a colon, strips a leading
digits-dot ordinal with surrounding whitespace, and strips apostrophes
exactly when the replacements parameter requests it: the requested form
removes every apostrophe, while the default form keeps them. -/
theorem claim7_clean_string :
    (clean_string ("3. Smith" ++ aposStr ++ "s Folly") (some [(aposStr, "")]) = "Smiths Folly") ∧
    (clean_string "Part A/B" none = "Part A:B") ∧
    (clean_string ("Smith" ++ aposStr ++ "s") none = "Smith" ++ aposStr ++ "s") ∧
    (∀ s : String, ((clean_string s none).toList.contains '/') = false) ∧
    (∀ s : String, ((clean_string s (some [(aposStr, "")])).toList.contains apos) = false) := by
  refine ⟨by decide, by decide, by decide, ?_, ?_⟩
  · intro s
    simpa using slash_not_mem_clean_string s
  · intro s
    simpa using apos_not_mem_clean_string_strip s

/-- C8: the exporter never overwrites an existing output file and
performs zero transcoder invocations when re-run against an unchanged
timeline and output directory. -/
theorem claim8_exporter_idempotent (d : String) (chs : List (String × Chapter))
    (existing : List String) :
    (convert_chapters d chs ((convert_chapters d chs existing).1)).2 = [] ∧
      (convert_chapters d chs existing).2.filter
        (fun inv => existing.contains inv.outfile) = [] :=
  convert_chapters_idempotent d chs existing

/-- C9: after compilation every chapter's track field is its 1-based
first-occurrence position, a slash, and the total number of compiled
chapters. -/
theorem claim9_track_numbering (a t d : String) (toc : List TocItem)
    (durs : List (String × ℚ)) (chs : List (String × Chapter))
    (h : compile_chapters a t d toc durs = .ok chs) :
    chs.map (fun p => p.2.track) =
      (List.range chs.length).map (fun i => Nat.repr (i + 1) ++ "/" ++ Nat.repr chs.length) ∧
    ∀ (i : Nat) (hi : i < chs.length),
      (chs.get ⟨i, hi⟩).2.track = Nat.repr (i + 1) ++ "/" ++ Nat.repr chs.length := by
  have hm := compile_ok_tracks a t d toc durs chs h
  refine ⟨hm, ?_⟩
  intro i hi
  have h2 := List.get_of_eq hm ⟨i, by simpa using hi⟩
  simp only [List.get_eq_getElem, List.getElem_map, List.getElem_range] at h2 ⊢
  exact h2

/-- C9 (witness): the track numbering on a concrete two-chapter run. -/
theorem claim9_witness :
    tocDupCompiled.map (fun p => p.2.track) =
      (List.range tocDupCompiled.length).map
        (fun i => Nat.repr (i + 1) ++ "/" ++ Nat.repr tocDupCompiled.length) ∧
    (tocDupCompiled.get ⟨0, by decide⟩).2.track =
      Nat.repr (0 + 1) ++ "/" ++ Nat.repr tocDupCompiled.length :=
  ⟨(claim9_track_numbering "au" "ti" "da" tocDup dursOne tocDupCompiled compile_tocDup_full).1,
   (claim9_track_numbering "au" "ti" "da" tocDup dursOne tocDupCompiled compile_tocDup_full).2
     0 (by decide)⟩

/-- C10: compiling an empty marker list does not return an empty timeline
but fails with the KeyError on the never-assigned None key, and a
successful compilation always returns at least one chapter. -/
theorem claim10_empty_toc :
    (∀ (a t d : String) (durs : List (String × ℚ)),
      compile_chapters a t d [] durs = .error CompileErr.keyErrorNone) ∧
    (∀ (a t d : String) (toc : List TocItem) (durs : List (String × ℚ))
      (chs : List (String × Chapter)),
      compile_chapters a t d toc durs = .ok chs → chs ≠ []) :=
  ⟨compile_empty, compile_ok_ne_nil⟩

/-- C10 (witness): the empty list fails with the None-key error on
concrete inputs, and a concrete successful run is nonempty. -/
theorem claim10_witness :
    compile_chapters "x" "y" "z" [] dursOne = .error CompileErr.keyErrorNone ∧
      tocDupCompiled ≠ [] :=
  ⟨claim10_empty_toc.1 "x" "y" "z" dursOne,
   claim10_empty_toc.2 "au" "ti" "da" tocDup dursOne tocDupCompiled compile_tocDup_full⟩

end TruAudiobook
